import Mathlib

/-!
Verification of the FASTQ preprocessing pipeline (`Script_personalizado.py`).

Strings are embedded as `List Char` (each Python line is modelled as its
stripped character list).  Python `int` values are `Int`; the trim counts are
`Nat` (the spec fixes them as non-negative base counts); Python float division
in the mean-quality check is modelled as exact rational division, matching the
spec's "exact real-number average".  The `max_length` parameter is `Option Int`
(`none` is Python `None`, "no upper bound").
-/

/-- Known adapter table (`ADAPTADORES`, lines 18-22): an insertion-ordered map
from kit name to literal adapter sequence; `.values()` iterates in this order. -/
def ADAPTADORES : List (String × List Char) :=
  [("TruSeq", "AGATCGGAAGAG".toList),
   ("SmallRNA", "TGGAATTCTCGG".toList),
   ("Nextera", "CTGTCTCTTATA".toList)]

/-- One FASTQ record as yielded by the Reader: the tuple
`(header, secuencia, calidades)` of `leer_fastq`. -/
structure Registro where
  header : List Char
  secuencia : List Char
  calidades : List Char
  deriving DecidableEq, Repr

/-- The parameter set consumed by the pipeline (the `params` dict).  The
`adaptador` field holds the literal adapter, with the string `"auto"` as the
automatic-mode sentinel, exactly as in the source. -/
structure Parametros where
  adaptador : List Char
  trim_left : Nat
  trim_right : Nat
  min_quality : Int
  min_mean_quality : Int
  min_length : Int
  max_length : Option Int
  max_n : Int
  remove_duplicates : Bool
  deriving DecidableEq, Repr

/-- Embeds `leer_fastq` (lines 25-35).  The file is a list of stripped lines;
`readline()` at end of file returns the empty string, so missing lines of a
truncated trailing group are read as `[]`.  The loop breaks exactly when the
would-be header line is empty. -/
def leer_fastq : List (List Char) → List Registro
  | [] => []
  | [h] => if h = [] then [] else [⟨h, [], []⟩]
  | [h, s] => if h = [] then [] else [⟨h, s, []⟩]
  | [h, s, _] => if h = [] then [] else [⟨h, s, []⟩]
  | h :: s :: _ :: q :: rest => if h = [] then [] else ⟨h, s, q⟩ :: leer_fastq rest

/-- Embeds `phred_a_valor` (lines 38-39): `ord(caracter) - 33`. -/
def phred_a_valor (caracter : Char) : Int :=
  (caracter.toNat : Int) - 33

/-- Helper for `removeAll`: the replacement scan with an explicit fuel counter
so that the recursion is structural (each step consumes at least one character,
so any fuel at least the string length computes the scan; `removeAll` passes
the string length).  Structural recursion keeps the function kernel-reducible. -/
def removeAllFuel (pat : List Char) : Nat → List Char → List Char
  | 0, s => s
  | _ + 1, [] => []
  | fuel + 1, c :: s =>
    if pat ≠ [] ∧ pat.isPrefixOf (c :: s) then removeAllFuel pat fuel ((c :: s).drop pat.length)
    else c :: removeAllFuel pat fuel s

/-- Embeds Python `s.replace(pat, '')` for `pat` the adapter string: one
left-to-right scan removing each non-overlapping occurrence (after a match the
scan resumes just past the removed occurrence).  For `pat = ''`,
`s.replace('', '')` returns `s` unchanged. -/
def removeAll (pat s : List Char) : List Char :=
  removeAllFuel pat s.length s

/-- Embeds the adapter-removal step of `procesar_secuencia` (lines 43-47):
a literal adapter is removed directly; the `'auto'` sentinel removes every
adapter of `ADAPTADORES`, in table order. -/
def quitar_adaptadores (params : Parametros) (secuencia : List Char) : List Char :=
  if params.adaptador ≠ "auto".toList then removeAll params.adaptador secuencia
  else ADAPTADORES.foldl (fun s a => removeAll a.2 s) secuencia

/-- Embeds the fixed-trimming step of `procesar_secuencia` (lines 49-54), as
applied to one string: `s = s[trim_left:]`, then `s = s[:-trim_right]` only
when `trim_right > 0`.  Python slicing past the end produces the empty
string, which is exactly `List.drop` / `List.take` on `Nat`. -/
def recortar (params : Parametros) (s : List Char) : List Char :=
  let s := s.drop params.trim_left
  if 0 < params.trim_right then s.take (s.length - params.trim_right) else s

/-- Embeds the upper-bound side of `len(secuencia) <= (params['max_length'] or
float('inf'))` (line 63): a falsy `max_length` (`None` or `0`) means no upper
bound. -/
def maxOk (m : Option Int) (n : Nat) : Bool :=
  match m with
  | none => true
  | some v => if v = 0 then true else decide ((n : Int) ≤ v)

/-- Embeds the accepted-record serialization (line 68):
`f"{header}\n{secuencia}\n+\n{calidades}\n"`. -/
def serializar (header secuencia calidades : List Char) : List Char :=
  header ++ '\n' :: (secuencia ++ '\n' :: '+' :: '\n' :: (calidades ++ ['\n']))

/-- Python's `min` on a list of ints, as used on `valores_phred`.  The
empty-list case is unreachable in `procesar_secuencia`, which rejects empty
lists first (Python's `min([])` would raise). -/
def minimo : List Int → Int
  | [] => 0
  | v :: vs => vs.foldl min v

/-- Embeds `procesar_secuencia` (lines 42-68): adapter removal, fixed trimming
of sequence and quality, then the rejection chain (empty quality, per-base
quality, mean quality, length bounds, ambiguous-base count), returning the
serialized record on acceptance and `none` (Python `None`) on rejection.
The mean check `sum(valores_phred)/len(valores_phred) < min_mean_quality`
(line 61) is embedded as the cross-multiplied integer comparison
`sum < min_mean_quality * len`, which is equivalent to the exact rational
comparison because the list is nonempty at that point (the lemma
`rat_mean_lt_iff` below proves the equivalence with the `media_baja`
predicate, which is the literal exact-average form). -/
def procesar_secuencia (header secuencia calidades : List Char) (params : Parametros) :
    Option (List Char) :=
  let secuencia := quitar_adaptadores params secuencia
  let secuencia := recortar params secuencia
  let calidades := recortar params calidades
  let valores_phred := calidades.map phred_a_valor
  if valores_phred = [] then none
  else if minimo valores_phred < params.min_quality then none
  else if valores_phred.sum < params.min_mean_quality * (valores_phred.length : Int) then none
  else if ¬ (params.min_length ≤ (secuencia.length : Int) ∧
             maxOk params.max_length secuencia.length = true) then none
  else if params.max_n < (secuencia.count 'N' : Int) then none
  else some (serializar header secuencia calidades)

/-- The loop state of `procesar_archivo` (lines 71-88): the seen-sequence set
(membership-only, modelled as a list), the two counters, and the records
written to the output file.  The `evaluadas` field is verification-only
instrumentation: it logs, in order, every record actually passed to
`procesar_secuencia` (i.e. every record that reaches the Filter Chain); it
influences nothing else. -/
structure Estado where
  secuencias_vistas : List (List Char)
  total : Nat
  conservadas : Nat
  salida : List (List Char)
  evaluadas : List Registro
  deriving DecidableEq, Repr

/-- Embeds one iteration of the `for header, seq, qual in leer_fastq(...)` loop
body (lines 79-88): `total += 1`; with `remove_duplicates`, a raw sequence
already in `secuencias_vistas` is skipped (`continue`) and a new one is added
before filtering; then `procesar_secuencia` runs and a truthy (non-`None`,
non-empty) result is written and counted. -/
def paso (params : Parametros) (st : Estado) (r : Registro) : Estado :=
  let st1 : Estado := { st with total := st.total + 1 }
  if params.remove_duplicates = true ∧ r.secuencia ∈ st1.secuencias_vistas then st1
  else
    let st2 : Estado :=
      if params.remove_duplicates = true then
        { st1 with secuencias_vistas := r.secuencia :: st1.secuencias_vistas }
      else st1
    let st3 : Estado := { st2 with evaluadas := st2.evaluadas ++ [r] }
    match procesar_secuencia r.header r.secuencia r.calidades params with
    | none => st3
    | some sec =>
      if sec = [] then st3
      else { st3 with salida := st3.salida ++ [sec], conservadas := st3.conservadas + 1 }

/-- The whole record loop of `procesar_archivo`, as a fold of `paso`. -/
def procesar_lista (params : Parametros) (rs : List Registro) (st : Estado) : Estado :=
  rs.foldl (paso params) st

/-- The initial loop state of `procesar_archivo`: empty seen-set, zero
counters, nothing written. -/
def estado_inicial : Estado :=
  ⟨[], 0, 0, [], []⟩

/-- The per-file outcome dict of `procesar_archivo` (lines 90-95), minus the
file name and wall-clock time. -/
structure Resultado where
  total : Nat
  conservadas : Nat
  porcentaje : ℚ
  deriving DecidableEq, Repr

/-- Embeds `procesar_archivo` (lines 71-95) on the file's stripped lines:
runs the loop from the initial state and builds the result dict, with
`porcentaje = (conservadas/total)*100 if total > 0 else 0`. -/
def procesar_archivo (lineas : List (List Char)) (params : Parametros) : Resultado :=
  let st := procesar_lista params (leer_fastq lineas) estado_inicial
  { total := st.total
    conservadas := st.conservadas
    porcentaje := if 0 < st.total then ((st.conservadas : ℚ) / (st.total : ℚ)) * 100 else 0 }

/-- Embeds the configuration-boundary translation of `max_length`
(`obtener_parametros`, lines 100-105 and 115): a configured value of `0`
becomes `None` ("no upper bound"); any other value is passed through. -/
def max_length_boundary (m : Int) : Option Int :=
  if m = 0 then none else some m

/-- Index of the leftmost occurrence of `pat` in a string: the first position
whose suffix starts with `pat`.  Used to state what one left-to-right
non-overlapping removal pass does. -/
def primera_ocurrencia (pat : List Char) : List Char → Option Nat
  | [] => none
  | c :: s =>
    if pat.isPrefixOf (c :: s) then some 0 else (primera_ocurrencia pat s).map (· + 1)

/-- The `valores_phred` list of `procesar_secuencia` (line 56): the decoded
Phred values of the post-trim quality string. -/
def valores (params : Parametros) (calidades : List Char) : List Int :=
  (recortar params calidades).map phred_a_valor

/-- The value of the `secuencia` variable after line 54: the sequence after
adapter removal and fixed trimming. -/
def secuencia_final (params : Parametros) (secuencia : List Char) : List Char :=
  recortar params (quitar_adaptadores params secuencia)

/-- The value of the `calidades` variable after line 54: the quality string
after fixed trimming (adapter removal never touches it). -/
def calidades_final (params : Parametros) (calidades : List Char) : List Char :=
  recortar params calidades

/-- The mean-quality rejection condition of line 61, over exact rationals:
`sum(valores_phred)/len(valores_phred) < params['min_mean_quality']`. -/
def media_baja (params : Parametros) (calidades : List Char) : Prop :=
  ((valores params calidades).sum : ℚ) / ((valores params calidades).length : ℚ) <
    (params.min_mean_quality : ℚ)

instance (params : Parametros) (calidades : List Char) :
    Decidable (media_baja params calidades) := by
  unfold media_baja
  infer_instance

/-- The full acceptance condition of the Filter Chain: `procesar_secuencia`
returns a record (rather than `None`) exactly when all five checks pass. -/
def acepta (params : Parametros) (secuencia calidades : List Char) : Prop :=
  valores params calidades ≠ [] ∧
  (∀ x ∈ valores params calidades, params.min_quality ≤ x) ∧
  ¬ media_baja params calidades ∧
  (params.min_length ≤ ((secuencia_final params secuencia).length : Int) ∧
    maxOk params.max_length (secuencia_final params secuencia).length = true) ∧
  ((secuencia_final params secuencia).count 'N' : Int) ≤ params.max_n

instance (params : Parametros) (secuencia calidades : List Char) :
    Decidable (acepta params secuencia calidades) := by
  unfold acepta
  infer_instance

/-! ### Basic lemmas about the string helpers -/

theorem removeAllFuel_congr (pat : List Char) :
    ∀ (fuel1 : Nat) (s : List Char) (fuel2 : Nat), s.length ≤ fuel1 → s.length ≤ fuel2 →
      removeAllFuel pat fuel1 s = removeAllFuel pat fuel2 s := by
  intro fuel1
  induction fuel1 with
  | zero =>
    intro s fuel2 h1 _
    have hs : s = [] := List.length_eq_zero.mp (Nat.le_zero.mp h1)
    subst hs
    cases fuel2 <;> rfl
  | succ fuel ih =>
    intro s fuel2 h1 h2
    cases s with
    | nil => cases fuel2 <;> rfl
    | cons c s =>
      cases fuel2 with
      | zero => simp at h2
      | succ fuel2 =>
        simp only [removeAllFuel]
        split
        next h =>
          have hp : 0 < pat.length := List.length_pos.mpr h.1
          apply ih
          · simp only [List.length_drop, List.length_cons]
            simp only [List.length_cons] at h1
            omega
          · simp only [List.length_drop, List.length_cons]
            simp only [List.length_cons] at h2
            omega
        next h =>
          have e : removeAllFuel pat fuel s = removeAllFuel pat fuel2 s := by
            apply ih
            · simp only [List.length_cons] at h1; omega
            · simp only [List.length_cons] at h2; omega
          rw [e]

/-- Unfolding equation for `removeAll` on a nonempty string. -/
theorem removeAll_cons (pat : List Char) (c : Char) (s : List Char) :
    removeAll pat (c :: s) =
      if pat ≠ [] ∧ pat.isPrefixOf (c :: s) then removeAll pat ((c :: s).drop pat.length)
      else c :: removeAll pat s := by
  show removeAllFuel pat (s.length + 1) (c :: s) = _
  simp only [removeAllFuel]
  split
  next h =>
    have hp : 0 < pat.length := List.length_pos.mpr h.1
    apply removeAllFuel_congr
    · simp only [List.length_drop, List.length_cons]
      omega
    · exact le_rfl
  next h => rfl

theorem removeAll_nil_input (pat : List Char) : removeAll pat [] = [] := rfl

/-- Replacement with the empty pattern leaves the string unchanged
(Python `s.replace('', '') == s`). -/
theorem removeAll_empty_pat (s : List Char) : removeAll [] s = s := by
  induction s with
  | nil => rfl
  | cons c s ih => rw [removeAll_cons]; simp [ih]

theorem foldl_min_lt_iff (t : Int) : ∀ (vs : List Int) (v : Int),
    vs.foldl min v < t ↔ ∃ x ∈ v :: vs, x < t := by
  intro vs
  induction vs with
  | nil => intro v; simp
  | cons a vs ih =>
    intro v
    rw [List.foldl_cons, ih (min v a)]
    constructor
    · rintro ⟨x, hx, hlt⟩
      rcases List.mem_cons.mp hx with rfl | hx
      · rcases min_lt_iff.mp hlt with hv | ha
        · exact ⟨v, List.mem_cons_self _ _, hv⟩
        · exact ⟨a, List.mem_cons.mpr (Or.inr (List.mem_cons_self _ _)), ha⟩
      · exact ⟨x, List.mem_cons.mpr (Or.inr (List.mem_cons.mpr (Or.inr hx))), hlt⟩
    · rintro ⟨x, hx, hlt⟩
      rcases List.mem_cons.mp hx with rfl | hx
      · exact ⟨min x a, List.mem_cons_self _ _, min_lt_iff.mpr (Or.inl hlt)⟩
      · rcases List.mem_cons.mp hx with rfl | hx
        · exact ⟨min v x, List.mem_cons_self _ _, min_lt_iff.mpr (Or.inr hlt)⟩
        · exact ⟨x, List.mem_cons.mpr (Or.inr hx), hlt⟩

/-- `minimo` of a nonempty list is below `t` exactly when some element is. -/
theorem minimo_lt_iff (l : List Int) (hne : l ≠ []) (t : Int) :
    minimo l < t ↔ ∃ x ∈ l, x < t := by
  cases l with
  | nil => exact absurd rfl hne
  | cons v vs => exact foldl_min_lt_iff t vs v

/-- `minimo` of a nonempty list is one of its elements. -/
theorem minimo_mem (l : List Int) (hne : l ≠ []) : minimo l ∈ l := by
  cases l with
  | nil => exact absurd rfl hne
  | cons v vs =>
    show vs.foldl min v ∈ v :: vs
    clear hne
    induction vs generalizing v with
    | nil => simp
    | cons a vs ih =>
      rw [List.foldl_cons]
      rcases List.mem_cons.mp (ih (min v a)) with he | hm
      · rcases min_choice v a with hc | hc
        · rw [he, hc]; exact List.mem_cons_self _ _
        · rw [he, hc]; exact List.mem_cons.mpr (Or.inr (List.mem_cons_self _ _))
      · exact List.mem_cons.mpr (Or.inr (List.mem_cons.mpr (Or.inr hm)))

/-- `minimo` bounds every element of the list from below. -/
theorem minimo_le (l : List Int) (x : Int) (hx : x ∈ l) : minimo l ≤ x := by
  by_contra h
  have hne : l ≠ [] := by rintro rfl; simp at hx
  exact lt_irrefl (minimo l) ((minimo_lt_iff l hne (minimo l)).mpr ⟨x, hx, not_le.mp h⟩)

theorem recortar_length (params : Parametros) (s : List Char) :
    (recortar params s).length = s.length - params.trim_left - params.trim_right := by
  simp only [recortar]
  split
  next h =>
    simp only [List.length_take, List.length_drop]
    omega
  next h =>
    simp only [List.length_drop]
    omega

theorem serializar_ne_nil (h s q : List Char) : serializar h s q ≠ [] := by
  unfold serializar
  cases h <;> simp

/-! ### Characterization of the Filter Chain -/

/-- The exact rational mean comparison coincides with the cross-multiplied
integer comparison used in `procesar_secuencia`, for nonempty lists. -/
theorem rat_mean_lt_iff (l : List Int) (m : Int) (hl : l ≠ []) :
    ((l.sum : ℚ) / (l.length : ℚ) < (m : ℚ)) ↔ l.sum < m * (l.length : Int) := by
  have h0 : (0 : ℚ) < (l.length : ℚ) := by
    have := List.length_pos.mpr hl
    exact_mod_cast this
  rw [div_lt_iff₀ h0]
  constructor
  · intro h; exact_mod_cast h
  · intro h; exact_mod_cast h

/-- `procesar_secuencia` returns a record exactly when all five checks pass,
and that record is the serialization of the transformed sequence and quality. -/
theorem procesar_secuencia_some_iff (params : Parametros)
    (header secuencia calidades out : List Char) :
    procesar_secuencia header secuencia calidades params = some out ↔
      acepta params secuencia calidades ∧
        out = serializar header (secuencia_final params secuencia)
                (calidades_final params calidades) := by
  simp only [procesar_secuencia, acepta, media_baja, valores, secuencia_final, calidades_final]
  set l := List.map phred_a_valor (recortar params calidades) with hl
  set sf := recortar params (quitar_adaptadores params secuencia) with hsf
  by_cases h0 : l = []
  · rw [if_pos h0]
    exact iff_of_false (by simp) (by rintro ⟨⟨hne, -, -, -, -⟩, -⟩; exact hne h0)
  rw [if_neg h0]
  by_cases h1 : minimo l < params.min_quality
  · rw [if_pos h1]
    refine iff_of_false (by simp) ?_
    rintro ⟨⟨-, hmin, -, -, -⟩, -⟩
    exact absurd (hmin _ (minimo_mem _ h0)) (not_le.mpr h1)
  rw [if_neg h1]
  by_cases h2 : l.sum < params.min_mean_quality * (l.length : Int)
  · rw [if_pos h2]
    refine iff_of_false (by simp) ?_
    rintro ⟨⟨-, -, hmean, -, -⟩, -⟩
    exact hmean ((rat_mean_lt_iff l params.min_mean_quality h0).mpr h2)
  rw [if_neg h2]
  by_cases h3 : params.min_length ≤ (sf.length : Int) ∧ maxOk params.max_length sf.length = true
  · rw [if_neg (not_not_intro h3)]
    by_cases h4 : params.max_n < (sf.count 'N' : Int)
    · rw [if_pos h4]
      refine iff_of_false (by simp) ?_
      rintro ⟨⟨-, -, -, -, hn⟩, -⟩
      exact absurd hn (not_le.mpr h4)
    · rw [if_neg h4]
      constructor
      · intro he
        refine ⟨⟨h0, ?_,
          fun hq => h2 ((rat_mean_lt_iff l params.min_mean_quality h0).mp hq),
          h3, not_lt.mp h4⟩, (Option.some.inj he).symm⟩
        intro x hx
        exact le_trans (not_lt.mp h1) (minimo_le _ x hx)
      · rintro ⟨-, rfl⟩
        rfl
  · rw [if_pos h3]
    exact iff_of_false (by simp) (by rintro ⟨⟨-, -, -, hlen, -⟩, -⟩; exact h3 hlen)

/-- `procesar_secuencia` returns `None` exactly when some check fails. -/
theorem procesar_secuencia_none_iff (params : Parametros)
    (header secuencia calidades : List Char) :
    procesar_secuencia header secuencia calidades params = none ↔
      ¬ acepta params secuencia calidades := by
  constructor
  · intro he hac
    have h2 := (procesar_secuencia_some_iff params header secuencia calidades
      (serializar header (secuencia_final params secuencia)
        (calidades_final params calidades))).mpr ⟨hac, rfl⟩
    rw [he] at h2
    cases h2
  · intro hna
    cases he : procesar_secuencia header secuencia calidades params with
    | none => rfl
    | some o =>
      exact absurd ((procesar_secuencia_some_iff params header secuencia calidades o).mp he).1 hna

/-! ### Lemmas about the file-processing loop -/

theorem paso_total (params : Parametros) (st : Estado) (r : Registro) :
    (paso params st r).total = st.total + 1 := by
  simp only [paso]
  repeat' split
  all_goals rfl

theorem paso_conservadas (params : Parametros) (st : Estado) (r : Registro) :
    st.conservadas ≤ (paso params st r).conservadas ∧
      (paso params st r).conservadas ≤ st.conservadas + 1 := by
  simp only [paso]
  repeat' split
  all_goals refine ⟨?_, ?_⟩ <;> simp

/-- A repeated raw sequence under `remove_duplicates` is skipped: only the
total counter moves. -/
theorem paso_skip (params : Parametros) (st : Estado) (r : Registro)
    (hd : params.remove_duplicates = true) (hm : r.secuencia ∈ st.secuencias_vistas) :
    paso params st r = { st with total := st.total + 1 } := by
  simp only [paso]
  rw [if_pos ⟨hd, hm⟩]

/-- A fresh raw sequence under `remove_duplicates` is recorded as seen and the
record reaches the Filter Chain. -/
theorem paso_eval_dup (params : Parametros) (st : Estado) (r : Registro)
    (hd : params.remove_duplicates = true) (hm : r.secuencia ∉ st.secuencias_vistas) :
    (paso params st r).secuencias_vistas = r.secuencia :: st.secuencias_vistas ∧
      (paso params st r).evaluadas = st.evaluadas ++ [r] := by
  simp only [paso]
  rw [if_neg (fun h => hm h.2), if_pos hd]
  repeat' split
  all_goals exact ⟨rfl, rfl⟩

/-- Without `remove_duplicates` every record reaches the Filter Chain and the
seen-set never grows. -/
theorem paso_nodup (params : Parametros) (st : Estado) (r : Registro)
    (hd : params.remove_duplicates = false) :
    (paso params st r).secuencias_vistas = st.secuencias_vistas ∧
      (paso params st r).evaluadas = st.evaluadas ++ [r] := by
  simp only [paso]
  rw [if_neg (fun h => by rw [hd] at h; exact Bool.false_ne_true h.1),
    if_neg (fun h => by rw [hd] at h; exact Bool.false_ne_true h)]
  repeat' split
  all_goals exact ⟨rfl, rfl⟩

theorem procesar_lista_total (params : Parametros) :
    ∀ (rs : List Registro) (st : Estado),
      (procesar_lista params rs st).total = st.total + rs.length := by
  intro rs
  induction rs with
  | nil => intro st; rfl
  | cons r rs ih =>
    intro st
    show (procesar_lista params rs (paso params st r)).total = _
    rw [ih (paso params st r), paso_total]
    simp only [List.length_cons]
    omega

theorem procesar_lista_conservadas_le (params : Parametros) :
    ∀ (rs : List Registro) (st : Estado), st.conservadas ≤ st.total →
      (procesar_lista params rs st).conservadas ≤ (procesar_lista params rs st).total := by
  intro rs
  induction rs with
  | nil => intro st h; exact h
  | cons r rs ih =>
    intro st h
    show (procesar_lista params rs (paso params st r)).conservadas ≤ _
    apply ih
    rw [paso_total]
    exact le_trans (paso_conservadas params st r).2 (by omega)

/-- Without `remove_duplicates`, every record of the file reaches the Filter
Chain, in order. -/
theorem procesar_lista_evaluadas_off (params : Parametros)
    (hd : params.remove_duplicates = false) :
    ∀ (rs : List Registro) (st : Estado),
      (procesar_lista params rs st).evaluadas = st.evaluadas ++ rs := by
  intro rs
  induction rs with
  | nil => intro st; simp [procesar_lista]
  | cons r rs ih =>
    intro st
    show (procesar_lista params rs (paso params st r)).evaluadas = _
    rw [ih (paso params st r), (paso_nodup params st r hd).2]
    simp

/-- With `remove_duplicates`, the number of records with raw sequence `s` that
reach the Filter Chain is `min 1` of the number present in the remaining input
(and `0` if `s` was already seen), independently of any Filter Chain verdict. -/
theorem procesar_lista_evaluadas_on (params : Parametros)
    (hd : params.remove_duplicates = true) (s : List Char) :
    ∀ (rs : List Registro) (st : Estado),
      ((procesar_lista params rs st).evaluadas.countP (fun x => decide (x.secuencia = s))) =
        st.evaluadas.countP (fun x => decide (x.secuencia = s)) +
          (if s ∈ st.secuencias_vistas then 0
           else min 1 (rs.countP (fun x => decide (x.secuencia = s)))) := by
  intro rs
  induction rs with
  | nil =>
    intro st
    simp [procesar_lista]
  | cons r rs ih =>
    intro st
    show ((procesar_lista params rs (paso params st r)).evaluadas.countP _) = _
    rw [ih (paso params st r)]
    by_cases hm : r.secuencia ∈ st.secuencias_vistas
    · rw [paso_skip params st r hd hm]
      by_cases hs : s ∈ st.secuencias_vistas
      · simp [hs]
      · have hr : ¬ (r.secuencia = s) := fun e => hs (e ▸ hm)
        simp [hs, List.countP_cons, hr]
    · obtain ⟨hv, he⟩ := paso_eval_dup params st r hd hm
      rw [hv, he]
      by_cases hrs : r.secuencia = s
      · subst hrs
        rw [if_neg hm, if_pos (List.mem_cons_self _ _)]
        simp only [List.countP_append, List.countP_cons, List.countP_nil, decide_eq_true_eq,
          eq_self_iff_true, if_true]
        omega
      · have hsr : ¬ (s = r.secuencia) := fun e => hrs e.symm
        by_cases hs : s ∈ st.secuencias_vistas
        · rw [if_pos hs, if_pos (List.mem_cons.mpr (Or.inr hs))]
          simp [List.countP_append, List.countP_cons, hrs]
        · rw [if_neg hs, if_neg (fun hc => by
            rcases List.mem_cons.mp hc with e | h2
            · exact hrs e.symm
            · exact hs h2)]
          simp [List.countP_append, List.countP_cons, hrs]

/-! ### The left-to-right non-overlapping removal pass -/

/-- Where there is no occurrence of the pattern, the scan leaves the string
unchanged. -/
theorem removeAll_of_primera_none (pat : List Char) :
    ∀ s : List Char, primera_ocurrencia pat s = none → removeAll pat s = s := by
  intro s
  induction s with
  | nil => intro _; rfl
  | cons c s ih =>
    intro h
    simp only [primera_ocurrencia] at h
    by_cases hp : pat.isPrefixOf (c :: s)
    · rw [if_pos hp] at h; cases h
    · rw [if_neg hp] at h
      rw [removeAll_cons, if_neg (fun hc => hp hc.2)]
      rw [ih (Option.map_eq_none'.mp h)]

/-- The scan removes the leftmost occurrence of the pattern and continues just
past it (non-overlapping, one left-to-right pass). -/
theorem removeAll_of_primera_some (pat : List Char) (hpat : pat ≠ []) :
    ∀ (s : List Char) (i : Nat), primera_ocurrencia pat s = some i →
      removeAll pat s = s.take i ++ removeAll pat (s.drop (i + pat.length)) := by
  intro s
  induction s with
  | nil => intro i h; simp [primera_ocurrencia] at h
  | cons c s ih =>
    intro i h
    simp only [primera_ocurrencia] at h
    by_cases hp : pat.isPrefixOf (c :: s)
    · rw [if_pos hp] at h
      have h0 : (0 : Nat) = i := Option.some.inj h
      subst h0
      rw [removeAll_cons, if_pos ⟨hpat, hp⟩]
      simp
    · rw [if_neg hp] at h
      rcases Option.map_eq_some'.mp h with ⟨j, hj, hji⟩
      subst hji
      rw [removeAll_cons, if_neg (fun hc => hp hc.2), ih j hj]
      have harr : j + 1 + pat.length = (j + pat.length) + 1 := by omega
      rw [harr]
      simp [List.take_succ_cons, List.drop_succ_cons]

/-- `primera_ocurrencia` returns the index of the leftmost occurrence: the
pattern starts there and at no earlier position. -/
theorem primera_ocurrencia_some_spec (pat : List Char) :
    ∀ (s : List Char) (i : Nat), primera_ocurrencia pat s = some i →
      pat.isPrefixOf (s.drop i) = true ∧ ∀ j < i, pat.isPrefixOf (s.drop j) = false := by
  intro s
  induction s with
  | nil => intro i h; simp [primera_ocurrencia] at h
  | cons c s ih =>
    intro i h
    simp only [primera_ocurrencia] at h
    by_cases hp : pat.isPrefixOf (c :: s)
    · rw [if_pos hp] at h
      have h0 : (0 : Nat) = i := Option.some.inj h
      subst h0
      exact ⟨by simpa using hp, fun j hj => absurd hj (Nat.not_lt_zero j)⟩
    · rw [if_neg hp] at h
      rcases Option.map_eq_some'.mp h with ⟨j, hj, hji⟩
      subst hji
      obtain ⟨h1, h2⟩ := ih j hj
      refine ⟨by simpa using h1, ?_⟩
      intro k hk
      cases k with
      | zero => simpa using Bool.eq_false_iff.mpr hp
      | succ k =>
        have hkj : k < j := by omega
        simpa using h2 k hkj

/-- When `primera_ocurrencia` finds nothing, the (nonempty) pattern occurs at
no position of the string. -/
theorem primera_ocurrencia_none_spec (pat : List Char) (hpat : pat ≠ []) :
    ∀ s : List Char, primera_ocurrencia pat s = none →
      ∀ j : Nat, pat.isPrefixOf (s.drop j) = false := by
  intro s
  induction s with
  | nil =>
    intro _ j
    rw [List.drop_nil]
    cases pat with
    | nil => exact absurd rfl hpat
    | cons a l => rfl
  | cons c s ih =>
    intro h j
    simp only [primera_ocurrencia] at h
    by_cases hp : pat.isPrefixOf (c :: s)
    · rw [if_pos hp] at h; cases h
    · rw [if_neg hp] at h
      cases j with
      | zero => simpa using Bool.eq_false_iff.mpr hp
      | succ j => simpa using ih (Option.map_eq_none'.mp h) j

/-- Trimming the empty string gives the empty string. -/
theorem recortar_nil (params : Parametros) : recortar params [] = [] := by
  simp [recortar]

/-! ### Helper identities for re-running the pipeline -/

/-- With both trim counts zero, trimming is the identity. -/
theorem recortar_id (params : Parametros) (htl : params.trim_left = 0)
    (htr : params.trim_right = 0) (s : List Char) : recortar params s = s := by
  simp [recortar, htl, htr]

/-- With the empty literal adapter, adapter removal is the identity. -/
theorem quitar_adaptadores_id (params : Parametros) (had : params.adaptador = [])
    (s : List Char) : quitar_adaptadores params s = s := by
  have hne : (([] : List Char) ≠ "auto".toList) := by decide
  simp only [quitar_adaptadores, had]
  rw [if_pos hne]
  exact removeAll_empty_pat s

set_option maxRecDepth 40000

/-! ### The claims -/

/-- Claim C1, counterexample: for the two-line input `["@r", "AC"]` (line count
not a multiple of four), `leer_fastq` yields the truncated trailing record with
an empty quality string instead of discarding it, and that yielded record has
`len(sequence) = 2 ≠ 0 = len(quality)`. -/
theorem c1_contraejemplo :
    leer_fastq [['@', 'r'], ['A', 'C']] = [⟨['@', 'r'], ['A', 'C'], []⟩] ∧
    (Registro.mk ['@', 'r'] ['A', 'C'] []).secuencia.length ≠
      (Registro.mk ['@', 'r'] ['A', 'C'] []).calidades.length := by
  decide

/-- Claim C1 (amended): when an input file's line count is not a multiple of
four, the Record Reader does NOT discard the truncated trailing record: it
yields it, reading the missing lines as empty strings (so a yielded record
need not satisfy `len(sequence) = len(quality)`).  However, every record whose
quality string is empty is rejected by the Filter Chain, so a truncated record
lacking its quality line is never accepted or written. -/
theorem c1_lector_trunca (h s : List Char) (params : Parametros) (hne : h ≠ []) :
    leer_fastq [h, s] = [⟨h, s, []⟩] ∧
    (∀ r : Registro, r.calidades = [] →
      procesar_secuencia r.header r.secuencia r.calidades params = none) := by
  constructor
  · simp only [leer_fastq]
    rw [if_neg hne]
  · intro r hq
    rw [hq, procesar_secuencia_none_iff]
    rintro ⟨hvne, -⟩
    exact hvne (by simp [valores, recortar_nil])

theorem c1_testigo :
    leer_fastq [['@', 'x'], ['A']] = [⟨['@', 'x'], ['A'], []⟩] ∧
    procesar_secuencia ['@', 'x'] ['A'] []
      ⟨['X'], 0, 0, 0, 0, 0, none, 0, true⟩ = none :=
  ⟨(c1_lector_trunca ['@', 'x'] ['A'] ⟨['X'], 0, 0, 0, 0, 0, none, 0, true⟩ (by decide)).1,
   (c1_lector_trunca ['@', 'x'] ['A'] ⟨['X'], 0, 0, 0, 0, 0, none, 0, true⟩ (by decide)).2
     ⟨['@', 'x'], ['A'], []⟩ rfl⟩

/-- Claim C2: writing `S` and `Q` for the lengths of the sequence and quality
right after adapter removal, every record accepted by the Filter Chain has
quality-length minus sequence-length at most `Q - S`; and fixed trimming by
itself maps equal-length strings to equal-length strings. -/
theorem c2_divergencia_longitud (params : Parametros)
    (header secuencia calidades out : List Char)
    (hacc : procesar_secuencia header secuencia calidades params = some out) :
    (((calidades_final params calidades).length : Int) -
        ((secuencia_final params secuencia).length : Int) ≤
      (calidades.length : Int) - ((quitar_adaptadores params secuencia).length : Int)) ∧
    (∀ s q : List Char, s.length = q.length →
      (recortar params s).length = (recortar params q).length) := by
  constructor
  · obtain ⟨⟨hvne, -, -, -, -⟩, -⟩ :=
      (procesar_secuencia_some_iff params header secuencia calidades out).mp hacc
    have hqne : recortar params calidades ≠ [] := by
      intro e
      apply hvne
      simp [valores, e]
    have hqpos : 0 < (recortar params calidades).length := List.length_pos.mpr hqne
    have h1 := recortar_length params calidades
    have h2 := recortar_length params (quitar_adaptadores params secuencia)
    simp only [calidades_final, secuencia_final]
    omega
  · intro s q hsq
    rw [recortar_length, recortar_length, hsq]

theorem c2_testigo :
    (((calidades_final ⟨['A', 'C'], 0, 0, 0, 0, 0, none, 9, true⟩ "IIII".toList).length : Int) -
        ((secuencia_final ⟨['A', 'C'], 0, 0, 0, 0, 0, none, 9, true⟩ "ACGT".toList).length : Int) ≤
      (("IIII".toList).length : Int) -
        ((quitar_adaptadores ⟨['A', 'C'], 0, 0, 0, 0, 0, none, 9, true⟩
            "ACGT".toList).length : Int)) ∧
    (∀ s q : List Char, s.length = q.length →
      (recortar ⟨['A', 'C'], 0, 0, 0, 0, 0, none, 9, true⟩ s).length =
        (recortar ⟨['A', 'C'], 0, 0, 0, 0, 0, none, 9, true⟩ q).length) :=
  c2_divergencia_longitud ⟨['A', 'C'], 0, 0, 0, 0, 0, none, 9, true⟩
    "@a".toList "ACGT".toList "IIII".toList
    (serializar "@a".toList "GT".toList "IIII".toList) (by decide)

/-- Claim C7: fixed trimming drops the first `trim_left` characters, and, only
when `trim_right > 0`, the last `trim_right` characters (all that remain, when
fewer); `trim_right = 0` leaves the right end untouched; and a trim reaching or
exceeding the string length produces the empty string rather than an error. -/
theorem c7_recorte (params : Parametros) (s : List Char) :
    (params.trim_right = 0 → recortar params s = s.drop params.trim_left) ∧
    (0 < params.trim_right →
      s.drop params.trim_left =
        recortar params s ++
          (s.drop params.trim_left).drop (s.length - params.trim_left - params.trim_right) ∧
      ((s.drop params.trim_left).drop
          (s.length - params.trim_left - params.trim_right)).length =
        min params.trim_right (s.length - params.trim_left)) ∧
    (recortar params s).length = s.length - params.trim_left - params.trim_right ∧
    (s.length ≤ params.trim_left + params.trim_right → recortar params s = []) := by
  refine ⟨?_, ?_, recortar_length params s, ?_⟩
  · intro h0
    simp [recortar, h0]
  · intro hpos
    constructor
    · have hdef : recortar params s =
          (s.drop params.trim_left).take (s.length - params.trim_left - params.trim_right) := by
        simp [recortar, if_pos hpos, List.length_drop]
      rw [hdef]
      exact (List.take_append_drop _ _).symm
    · simp only [List.length_drop]
      omega
  · intro hle
    have hlen := recortar_length params s
    have h0 : (recortar params s).length = 0 := by omega
    exact List.length_eq_zero.mp h0

theorem c7_testigo :
    "abcdefghij".toList.drop 2 =
      recortar ⟨['X'], 2, 3, 0, 0, 0, none, 0, true⟩ "abcdefghij".toList ++
        ("abcdefghij".toList.drop 2).drop ("abcdefghij".toList.length - 2 - 3) ∧
    (("abcdefghij".toList.drop 2).drop ("abcdefghij".toList.length - 2 - 3)).length =
      min 3 ("abcdefghij".toList.length - 2) :=
  (c7_recorte ⟨['X'], 2, 3, 0, 0, 0, none, 0, true⟩ "abcdefghij".toList).2.1 (by decide)

/-- Claim C8: with a literal adapter (not the `'auto'` sentinel) the whole
sequence is passed through one non-overlapping left-to-right removal pass for
that literal; automatic mode chains the same pass for the three table adapters
in table order; the removal pass removes the leftmost occurrence and resumes
past it (and leaves strings without occurrences unchanged); and the quality
string of an accepted record is only trimmed, never adapter-processed. -/
theorem c8_quitar_adaptadores (params : Parametros) (secuencia : List Char) :
    (params.adaptador ≠ "auto".toList →
      quitar_adaptadores params secuencia = removeAll params.adaptador secuencia) ∧
    (params.adaptador = "auto".toList →
      quitar_adaptadores params secuencia =
        removeAll "CTGTCTCTTATA".toList
          (removeAll "TGGAATTCTCGG".toList (removeAll "AGATCGGAAGAG".toList secuencia))) ∧
    (ADAPTADORES.map Prod.fst = ["TruSeq", "SmallRNA", "Nextera"] ∧
      ADAPTADORES.map Prod.snd =
        ["AGATCGGAAGAG".toList, "TGGAATTCTCGG".toList, "CTGTCTCTTATA".toList]) ∧
    (∀ pat t : List Char, primera_ocurrencia pat t = none → removeAll pat t = t) ∧
    (∀ (pat t : List Char) (i : Nat), pat ≠ [] → primera_ocurrencia pat t = some i →
      removeAll pat t = t.take i ++ removeAll pat (t.drop (i + pat.length)) ∧
      pat.isPrefixOf (t.drop i) = true ∧ ∀ j < i, pat.isPrefixOf (t.drop j) = false) ∧
    (∀ header calidades out : List Char,
      procesar_secuencia header secuencia calidades params = some out →
      out = serializar header (recortar params (quitar_adaptadores params secuencia))
        (recortar params calidades)) := by
  refine ⟨?_, ?_, ⟨rfl, rfl⟩, removeAll_of_primera_none, ?_, ?_⟩
  · intro h
    simp only [quitar_adaptadores]
    rw [if_pos h]
  · intro h
    simp only [quitar_adaptadores]
    rw [if_neg (not_not_intro h)]
    simp [ADAPTADORES]
  · intro pat t i hp ho
    obtain ⟨h1, h2⟩ := primera_ocurrencia_some_spec pat t i ho
    exact ⟨removeAll_of_primera_some pat hp t i ho, h1, h2⟩
  · intro header calidades out he
    exact ((procesar_secuencia_some_iff params header secuencia calidades out).mp he).2

theorem c8_testigo :
    quitar_adaptadores ⟨['A', 'C'], 0, 0, 0, 0, 0, none, 0, true⟩ "ACGTAC".toList =
      removeAll ['A', 'C'] "ACGTAC".toList :=
  (c8_quitar_adaptadores ⟨['A', 'C'], 0, 0, 0, 0, 0, none, 0, true⟩ "ACGTAC".toList).1
    (by decide)

/-- Claim C9: the keep percentage of `procesar_archivo` is
`conservadas/total*100` when `total > 0` and exactly `0` when `total = 0`;
`conservadas` never exceeds `total`, so the percentage always lies in
`[0, 100]`. -/
theorem c9_porcentaje (lineas : List (List Char)) (params : Parametros) :
    ((procesar_archivo lineas params).total = 0 →
      (procesar_archivo lineas params).porcentaje = 0) ∧
    (0 < (procesar_archivo lineas params).total →
      (procesar_archivo lineas params).porcentaje =
        ((procesar_archivo lineas params).conservadas : ℚ) /
          ((procesar_archivo lineas params).total : ℚ) * 100) ∧
    (procesar_archivo lineas params).conservadas ≤ (procesar_archivo lineas params).total ∧
    0 ≤ (procesar_archivo lineas params).porcentaje ∧
    (procesar_archivo lineas params).porcentaje ≤ 100 := by
  have hcle : (procesar_lista params (leer_fastq lineas) estado_inicial).conservadas ≤
      (procesar_lista params (leer_fastq lineas) estado_inicial).total :=
    procesar_lista_conservadas_le params (leer_fastq lineas) estado_inicial (le_refl 0)
  have htot : (procesar_archivo lineas params).total =
      (procesar_lista params (leer_fastq lineas) estado_inicial).total := rfl
  have hcon : (procesar_archivo lineas params).conservadas =
      (procesar_lista params (leer_fastq lineas) estado_inicial).conservadas := rfl
  have hpor : (procesar_archivo lineas params).porcentaje =
      (if 0 < (procesar_lista params (leer_fastq lineas) estado_inicial).total
       then (((procesar_lista params (leer_fastq lineas) estado_inicial).conservadas : ℚ) /
          ((procesar_lista params (leer_fastq lineas) estado_inicial).total : ℚ)) * 100
       else 0) := rfl
  rw [htot, hcon, hpor]
  by_cases h : 0 < (procesar_lista params (leer_fastq lineas) estado_inicial).total
  · rw [if_pos h]
    have h1 : ((procesar_lista params (leer_fastq lineas) estado_inicial).conservadas : ℚ) /
        ((procesar_lista params (leer_fastq lineas) estado_inicial).total : ℚ) ≤ 1 := by
      rw [div_le_one (by exact_mod_cast h)]
      exact_mod_cast hcle
    have h2 := mul_le_mul_of_nonneg_right h1 (by norm_num : (0:ℚ) ≤ 100)
    rw [one_mul] at h2
    refine ⟨fun h0 => absurd h0 (by omega), fun _ => rfl, hcle, ?_, h2⟩
    positivity
  · rw [if_neg h]
    exact ⟨fun _ => rfl, fun hlt => absurd hlt h, hcle, le_refl 0, by norm_num⟩

theorem c9_testigo :
    (procesar_archivo [] ⟨['X'], 0, 0, 0, 0, 0, none, 0, true⟩).porcentaje = 0 :=
  (c9_porcentaje [] ⟨['X'], 0, 0, 0, 0, 0, none, 0, true⟩).1 rfl

/-- Claim C3: every record increments `total`; with `remove_duplicates = true`,
for any raw sequence `s` occurring in the file exactly one record with that
raw sequence reaches the Filter Chain (the duplicates are dropped beforehand,
whatever the Filter Chain decided for the first); with
`remove_duplicates = false` every record reaches the Filter Chain. -/
theorem c3_duplicados (params : Parametros) (rs : List Registro) (s : List Char) :
    (procesar_lista params rs estado_inicial).total = rs.length ∧
    (params.remove_duplicates = true →
      ((procesar_lista params rs estado_inicial).evaluadas.countP
          (fun x => decide (x.secuencia = s))) =
        min 1 (rs.countP (fun x => decide (x.secuencia = s)))) ∧
    (params.remove_duplicates = false →
      (procesar_lista params rs estado_inicial).evaluadas = rs) := by
  refine ⟨?_, ?_, ?_⟩
  · rw [procesar_lista_total]
    simp [estado_inicial]
  · intro hd
    rw [procesar_lista_evaluadas_on params hd s rs estado_inicial]
    simp [estado_inicial]
  · intro hd
    rw [procesar_lista_evaluadas_off params hd rs estado_inicial]
    rfl

theorem c3_testigo :
    ((procesar_lista ⟨['X'], 0, 0, 100, 0, 0, none, 9, true⟩
        [⟨"@a".toList, "AC".toList, "II".toList⟩, ⟨"@b".toList, "AC".toList, "II".toList⟩]
        estado_inicial).evaluadas.countP
      (fun x => decide (x.secuencia = "AC".toList))) = 1 := by
  have h := (c3_duplicados ⟨['X'], 0, 0, 100, 0, 0, none, 9, true⟩
    [⟨"@a".toList, "AC".toList, "II".toList⟩, ⟨"@b".toList, "AC".toList, "II".toList⟩]
    "AC".toList).2.1 rfl
  rw [h]
  decide

/-- Claim C4: a record accepted by the Filter Chain is accepted again,
unchanged, when the chain is re-run on the accepted record with zero trims,
the empty (no-op) adapter, and thresholds no stricter than before. -/
theorem c4_idempotencia (p1 p2 : Parametros) (header secuencia calidades out : List Char)
    (hacc : procesar_secuencia header secuencia calidades p1 = some out)
    (had : p2.adaptador = [])
    (htl : p2.trim_left = 0) (htr : p2.trim_right = 0)
    (hq : p2.min_quality ≤ p1.min_quality)
    (hm : p2.min_mean_quality ≤ p1.min_mean_quality)
    (hl : p2.min_length ≤ p1.min_length)
    (hmax : ∀ n : Nat, maxOk p1.max_length n = true → maxOk p2.max_length n = true)
    (hn : p1.max_n ≤ p2.max_n) :
    procesar_secuencia header (secuencia_final p1 secuencia) (calidades_final p1 calidades) p2 =
      some out ∧
    out = serializar header (secuencia_final p1 secuencia) (calidades_final p1 calidades) := by
  obtain ⟨⟨hvne, hmin, hmean, ⟨hlen1, hlen2⟩, hcount⟩, hout⟩ :=
    (procesar_secuencia_some_iff p1 header secuencia calidades out).mp hacc
  have hid_s : secuencia_final p2 (secuencia_final p1 secuencia) = secuencia_final p1 secuencia := by
    show recortar p2 (quitar_adaptadores p2 (secuencia_final p1 secuencia)) = _
    rw [quitar_adaptadores_id p2 had, recortar_id p2 htl htr]
  have hid_q : calidades_final p2 (calidades_final p1 calidades) = calidades_final p1 calidades := by
    show recortar p2 (calidades_final p1 calidades) = _
    rw [recortar_id p2 htl htr]
  have hv : valores p2 (calidades_final p1 calidades) = valores p1 calidades := by
    show (recortar p2 (calidades_final p1 calidades)).map phred_a_valor = _
    rw [recortar_id p2 htl htr]
    rfl
  refine ⟨(procesar_secuencia_some_iff p2 header (secuencia_final p1 secuencia)
    (calidades_final p1 calidades) out).mpr ⟨⟨?_, ?_, ?_, ?_, ?_⟩, ?_⟩, hout⟩
  · rw [hv]; exact hvne
  · rw [hv]; intro x hx; exact le_trans hq (hmin x hx)
  · rw [media_baja, hv]
    intro hlt
    apply hmean
    calc ((valores p1 calidades).sum : ℚ) / ((valores p1 calidades).length : ℚ)
        < (p2.min_mean_quality : ℚ) := hlt
      _ ≤ (p1.min_mean_quality : ℚ) := by exact_mod_cast hm
  · rw [hid_s]
    exact ⟨le_trans hl hlen1, hmax _ hlen2⟩
  · rw [hid_s]
    exact le_trans hcount hn
  · rw [hid_s, hid_q]
    exact hout

theorem c4_testigo :
    procesar_secuencia "@a".toList
      (secuencia_final ⟨"XX".toList, 0, 0, 0, 0, 0, none, 9, true⟩ "ACGT".toList)
      (calidades_final ⟨"XX".toList, 0, 0, 0, 0, 0, none, 9, true⟩ "IIII".toList)
      ⟨[], 0, 0, 0, 0, 0, none, 9, false⟩ =
    some (serializar "@a".toList "ACGT".toList "IIII".toList) :=
  (c4_idempotencia ⟨"XX".toList, 0, 0, 0, 0, 0, none, 9, true⟩
    ⟨[], 0, 0, 0, 0, 0, none, 9, false⟩
    "@a".toList "ACGT".toList "IIII".toList
    (serializar "@a".toList "ACGT".toList "IIII".toList)
    (by decide) rfl rfl rfl (by decide) (by decide) (by decide)
    (fun n h => h) (by decide)).1

/-- Claim C5: the quality thresholds are inclusive.  A record whose minimum
decoded Phred value equals `min_quality` passes the per-base check (and is
accepted when the remaining checks pass); a minimum one point below is
rejected; and the mean check rejects exactly when the exact average of the
decoded values is strictly below `min_mean_quality` (strictly below rejects;
not strictly below passes the mean check). -/
theorem c5_umbral_calidad (params : Parametros) (header secuencia calidades : List Char)
    (hne : valores params calidades ≠ []) :
    (minimo (valores params calidades) = params.min_quality →
      ∀ x ∈ valores params calidades, params.min_quality ≤ x) ∧
    (minimo (valores params calidades) = params.min_quality →
      ¬ media_baja params calidades →
      (params.min_length ≤ ((secuencia_final params secuencia).length : Int) ∧
        maxOk params.max_length (secuencia_final params secuencia).length = true) →
      ((secuencia_final params secuencia).count 'N' : Int) ≤ params.max_n →
      procesar_secuencia header secuencia calidades params =
        some (serializar header (secuencia_final params secuencia)
          (calidades_final params calidades))) ∧
    (minimo (valores params calidades) = params.min_quality - 1 →
      procesar_secuencia header secuencia calidades params = none) ∧
    (media_baja params calidades →
      procesar_secuencia header secuencia calidades params = none) := by
  refine ⟨?_, ?_, ?_, ?_⟩
  · intro he x hx
    rw [← he]
    exact minimo_le _ x hx
  · intro he hmean hlen hcount
    refine (procesar_secuencia_some_iff params header secuencia calidades _).mpr
      ⟨⟨hne, ?_, hmean, hlen, hcount⟩, rfl⟩
    intro x hx
    rw [← he]
    exact minimo_le _ x hx
  · intro he
    rw [procesar_secuencia_none_iff]
    rintro ⟨-, hmin, -, -, -⟩
    have h1 := hmin (minimo (valores params calidades)) (minimo_mem _ hne)
    omega
  · intro hmed
    rw [procesar_secuencia_none_iff]
    rintro ⟨-, -, hmean, -, -⟩
    exact hmean hmed

theorem c5_testigo :
    procesar_secuencia "@a".toList "AC".toList "II".toList
        ⟨['X'], 0, 0, 40, 0, 0, none, 9, true⟩ =
      some (serializar "@a".toList
        (secuencia_final ⟨['X'], 0, 0, 40, 0, 0, none, 9, true⟩ "AC".toList)
        (calidades_final ⟨['X'], 0, 0, 40, 0, 0, none, 9, true⟩ "II".toList)) :=
  (c5_umbral_calidad ⟨['X'], 0, 0, 40, 0, 0, none, 9, true⟩ "@a".toList "AC".toList "II".toList
    (by decide)).2.1 (by decide)
    (fun hmd => absurd ((rat_mean_lt_iff
      (valores ⟨['X'], 0, 0, 40, 0, 0, none, 9, true⟩ "II".toList) 0 (by decide)).mp hmd)
      (by decide))
    (by decide) (by decide)

/-- Claim C6: once the earlier checks pass, the record is rejected at the
length step exactly when the trimmed length is strictly below `min_length` or
the upper bound fails; the upper bound fails exactly for a nonzero `max_length`
strictly below the length; an absent `max_length` (and the configured `0`,
translated to `None` at the parameter boundary) never rejects. -/
theorem c6_longitud (params : Parametros) (header secuencia calidades : List Char)
    (hne : valores params calidades ≠ [])
    (hmin : ∀ x ∈ valores params calidades, params.min_quality ≤ x)
    (hmean : ¬ media_baja params calidades) :
    ((((secuencia_final params secuencia).length : Int) < params.min_length ∨
        maxOk params.max_length (secuencia_final params secuencia).length = false) →
      procesar_secuencia header secuencia calidades params = none) ∧
    ((params.min_length ≤ ((secuencia_final params secuencia).length : Int) ∧
        maxOk params.max_length (secuencia_final params secuencia).length = true) →
      (procesar_secuencia header secuencia calidades params =
          some (serializar header (secuencia_final params secuencia)
            (calidades_final params calidades)) ↔
        ((secuencia_final params secuencia).count 'N' : Int) ≤ params.max_n)) ∧
    (∀ (m : Int) (n : Nat), maxOk (some m) n = false ↔ (m ≠ 0 ∧ m < (n : Int))) ∧
    (∀ n : Nat, maxOk none n = true) ∧
    max_length_boundary 0 = none := by
  refine ⟨?_, ?_, ?_, fun n => rfl, rfl⟩
  · intro hv
    rw [procesar_secuencia_none_iff]
    rintro ⟨-, -, -, ⟨hl1, hl2⟩, -⟩
    rcases hv with h | h
    · exact absurd hl1 (not_le.mpr h)
    · rw [hl2] at h
      cases h
  · rintro ⟨hl1, hl2⟩
    constructor
    · intro he
      exact ((procesar_secuencia_some_iff params header secuencia calidades _).mp he).1.2.2.2.2
    · intro hcount
      exact (procesar_secuencia_some_iff params header secuencia calidades _).mpr
        ⟨⟨hne, hmin, hmean, ⟨hl1, hl2⟩, hcount⟩, rfl⟩
  · intro m n
    simp only [maxOk]
    by_cases hm : m = 0
    · subst hm
      simp
    · rw [if_neg hm]
      simp only [decide_eq_false_iff_not, not_le]
      constructor
      · exact fun h => ⟨hm, h⟩
      · exact fun h => h.2

theorem c6_testigo :
    procesar_secuencia "@a".toList "AC".toList "II".toList
        ⟨['X'], 0, 0, 0, 0, 5, none, 9, true⟩ = none :=
  (c6_longitud ⟨['X'], 0, 0, 0, 0, 5, none, 9, true⟩ "@a".toList "AC".toList "II".toList
    (by decide) (by decide)
    (fun hmd => absurd ((rat_mean_lt_iff
      (valores ⟨['X'], 0, 0, 0, 0, 5, none, 9, true⟩ "II".toList) 0 (by decide)).mp hmd)
      (by decide))).1
    (Or.inl (by decide))

/-- Claim C10, counterexample: with `max_length = -1` (expressible through the
parameter sources), a record with non-empty post-trim quality, empty post-trim
sequence, both quality thresholds passing, `min_length = 0` and `max_n ≥ 0` is
nevertheless rejected (at the upper length bound), so the claim's acceptance
conditions are not sufficient as stated. -/
theorem c10_contraejemplo :
    procesar_secuencia "@a".toList "AC".toList "II".toList
        ⟨"AC".toList, 0, 0, 0, 0, 0, some (-1), 0, true⟩ = none ∧
    secuencia_final ⟨"AC".toList, 0, 0, 0, 0, 0, some (-1), 0, true⟩ "AC".toList = [] ∧
    calidades_final ⟨"AC".toList, 0, 0, 0, 0, 0, some (-1), 0, true⟩ "II".toList ≠ [] ∧
    (⟨"AC".toList, 0, 0, 0, 0, 0, some (-1), 0, true⟩ : Parametros).min_quality ≤
      minimo (valores ⟨"AC".toList, 0, 0, 0, 0, 0, some (-1), 0, true⟩ "II".toList) ∧
    ¬ media_baja ⟨"AC".toList, 0, 0, 0, 0, 0, some (-1), 0, true⟩ "II".toList ∧
    (⟨"AC".toList, 0, 0, 0, 0, 0, some (-1), 0, true⟩ : Parametros).min_length = 0 ∧
    (0 : Int) ≤ (⟨"AC".toList, 0, 0, 0, 0, 0, some (-1), 0, true⟩ : Parametros).max_n := by
  refine ⟨by decide, by decide, by decide, by decide, ?_, by decide, by decide⟩
  intro hmd
  exact absurd ((rat_mean_lt_iff
    (valores ⟨"AC".toList, 0, 0, 0, 0, 0, some (-1), 0, true⟩ "II".toList) 0
    (by decide)).mp hmd) (by decide)

/-- Claim C10 (amended): the emptiness rejection tests only the post-trim
quality string; a record with non-empty post-trim quality and empty post-trim
sequence is accepted whenever both quality thresholds pass, `min_length = 0`,
`max_n ≥ 0`, AND the upper length bound admits length zero (`max_length`
absent, zero, or non-negative) — producing a serialized four-line record whose
sequence line is empty. -/
theorem c10_secuencia_vacia (params : Parametros) (header secuencia calidades : List Char)
    (hq : calidades_final params calidades ≠ [])
    (hs : secuencia_final params secuencia = [])
    (hmin : ∀ x ∈ valores params calidades, params.min_quality ≤ x)
    (hmean : ¬ media_baja params calidades)
    (hlen : params.min_length = 0)
    (hn : (0 : Int) ≤ params.max_n)
    (hmax : maxOk params.max_length 0 = true) :
    procesar_secuencia header secuencia calidades params =
      some (serializar header [] (calidades_final params calidades)) ∧
    serializar header [] (calidades_final params calidades) =
      header ++ '\n' :: '\n' :: '+' :: '\n' :: (calidades_final params calidades ++ ['\n']) := by
  constructor
  · refine (procesar_secuencia_some_iff params header secuencia calidades _).mpr
      ⟨⟨?_, hmin, hmean, ?_, ?_⟩, by rw [hs]⟩
    · intro e
      exact hq (List.map_eq_nil_iff.mp e)
    · rw [hs, hlen]
      exact ⟨by simp, by simpa using hmax⟩
    · rw [hs]
      simpa using hn
  · simp [serializar]

theorem c10_testigo :
    procesar_secuencia "@a".toList "AC".toList "II".toList
        ⟨"AC".toList, 0, 0, 0, 0, 0, none, 0, true⟩ =
      some (serializar "@a".toList []
        (calidades_final ⟨"AC".toList, 0, 0, 0, 0, 0, none, 0, true⟩ "II".toList)) :=
  (c10_secuencia_vacia ⟨"AC".toList, 0, 0, 0, 0, 0, none, 0, true⟩ "@a".toList "AC".toList
    "II".toList (by decide) (by decide) (by decide)
    (fun hmd => absurd ((rat_mean_lt_iff
      (valores ⟨"AC".toList, 0, 0, 0, 0, 0, none, 0, true⟩ "II".toList) 0 (by decide)).mp hmd)
      (by decide))
    rfl (by decide) rfl).1
